import Mathlib

/-!
Shallow embedding of the cash-register core (`src/models.py`, `src/exceptions.py`,
`src/register.py`) and proofs of the specification claims.

Modelling choices:
* Python `Decimal` is modelled by `ℚ`: the specification requires exact decimal
  arithmetic with no intermediate rounding, and every operation used by the code
  (addition, multiplication, division by 100, comparisons) is exact on the
  decimal values involved.
* Python `int` quantities are modelled by `Int` (they may be zero or negative —
  the code never validates them).
* A method that can raise returns `Except RegisterError σ`; a raised exception
  aborts the call before any mutation, so an `error` result carries no new
  state and the caller's register is the unchanged pre-state.
* Python's `dict` is insertion-ordered with unique keys; the consolidation dict
  of `to_receipt` is modelled as a list of entries where an existing key is
  updated in place (`bumpFirst`) and a new key is appended at the end.
* Python's `sorted` is a stable sort; it is modelled by `List.insertionSort`
  on the key `sku`, which is also stable, and any two stable sorts by the same
  key agree.
-/

/-- `LineItem` from `src/models.py`: one scanned batch of a sku at a unit price. -/
structure LineItem where
  sku : String
  qty : Int
  unit_price : ℚ
  deriving DecidableEq, Repr

/-- `LineItem.total_price` from `src/models.py`: `unit_price * qty`. -/
def LineItem.total_price (li : LineItem) : ℚ :=
  li.unit_price * (li.qty : ℚ)

/-- The consolidation key used by `to_receipt`: the pair `(sku, unit_price)`. -/
def LineItem.key (li : LineItem) : String × ℚ :=
  (li.sku, li.unit_price)

/-- `Receipt` from `src/models.py`. -/
structure Receipt where
  lines : List LineItem
  total_gross : ℚ
  discount_pct : ℚ
  total_due : ℚ
  deriving DecidableEq, Repr

/-- The two exception kinds of `src/exceptions.py`, each carrying the
offending value. -/
inductive RegisterError where
  | NegativePriceError (price : ℚ)
  | DiscountError (percent : ℚ)
  deriving DecidableEq, Repr

/-- The mutable state of `CashRegister` from `src/register.py`:
`_line_items` and `_discount_percent`. -/
structure CashRegister where
  line_items : List LineItem
  discount_percent : ℚ
  deriving DecidableEq, Repr

/-- `CashRegister.__init__`: empty scan log, discount 0. -/
def CashRegister.init : CashRegister :=
  { line_items := [], discount_percent := 0 }

/-- `CashRegister.scan_item`: raises `NegativePriceError` when `price <= 0`,
otherwise appends `LineItem(sku, qty, price)` to the scan log. -/
def CashRegister.scan_item (r : CashRegister) (sku : String) (price : ℚ)
    (qty : Int) : Except RegisterError CashRegister :=
  if price ≤ 0 then
    .error (.NegativePriceError price)
  else
    .ok { r with line_items := r.line_items ++ [{ sku := sku, qty := qty, unit_price := price }] }

/-- `CashRegister.apply_discount`: raises `DiscountError` unless
`0 < percent < 100`, otherwise overwrites the discount scalar. -/
def CashRegister.apply_discount (r : CashRegister) (percent : ℚ) :
    Except RegisterError CashRegister :=
  if percent ≤ 0 ∨ percent ≥ 100 then
    .error (.DiscountError percent)
  else
    .ok { r with discount_percent := percent }

/-- `CashRegister.remove_discount`: sets the discount scalar to 0. -/
def CashRegister.remove_discount (r : CashRegister) : CashRegister :=
  { r with discount_percent := 0 }

/-- `CashRegister.total`: sum of `total_price` over the raw scan log, minus
the discount share when a discount is set. -/
def CashRegister.total (r : CashRegister) : ℚ :=
  let subtotal := (r.line_items.map LineItem.total_price).sum
  if r.discount_percent > 0 then
    let discount_amount := subtotal * (r.discount_percent / 100)
    subtotal - discount_amount
  else
    subtotal

/-- `CashRegister.reset`: clears the scan log; the discount is untouched. -/
def CashRegister.reset (r : CashRegister) : CashRegister :=
  { r with line_items := [] }

/-- Update of an existing entry of the consolidation dict:
`consolidated_items[key].qty += item.qty`. The dict has unique keys, so
updating the first (unique) entry matching `item.key` models the dict write. -/
def bumpFirst (item : LineItem) : List LineItem → List LineItem
  | [] => []
  | c :: cs =>
    if c.key = item.key then { c with qty := c.qty + item.qty } :: cs
    else c :: bumpFirst item cs

/-- One iteration of the consolidation loop of `to_receipt`: bump the existing
entry for `item.key`, or append a fresh consolidated `LineItem` copy. -/
def consStep (acc : List LineItem) (item : LineItem) : List LineItem :=
  if item.key ∈ acc.map LineItem.key then bumpFirst item acc
  else acc ++ [{ sku := item.sku, qty := item.qty, unit_price := item.unit_price }]

/-- The sort key of `to_receipt`: compare consolidated lines by `sku`. -/
def skuLE (a b : LineItem) : Prop :=
  a.sku ≤ b.sku

instance : DecidableRel skuLE := fun a b => by
  unfold skuLE; infer_instance

instance : IsTotal LineItem skuLE :=
  ⟨fun a b => le_total a.sku b.sku⟩

instance : IsTrans LineItem skuLE :=
  ⟨fun _ _ _ hab hbc => le_trans hab hbc⟩

/-- `CashRegister.to_receipt`: consolidate the scan log by `(sku, unit_price)`
in an insertion-ordered dict, sort the consolidated lines by sku with a stable
sort, and compute the totals. -/
def CashRegister.to_receipt (r : CashRegister) : Receipt :=
  let lines := List.insertionSort skuLE (r.line_items.foldl consStep [])
  let total_gross := (lines.map LineItem.total_price).sum
  let discount_amount :=
    if r.discount_percent > 0 then total_gross * (r.discount_percent / 100) else (0 : ℚ)
  let total_due := total_gross - discount_amount
  { lines := lines, total_gross := total_gross,
    discount_pct := r.discount_percent, total_due := total_due }

/-- The consolidation loop of `to_receipt` with the register's scan log carried
through the iteration state. The loop body reads `item` from the log and writes
only to the dict: the `else` branch constructs a fresh `LineItem` copy and the
`if` branch bumps `qty` on such a copy, never on a stored item, so the log
component passes through each iteration unchanged. -/
def consLoopStep (st : List LineItem × List LineItem) (item : LineItem) :
    List LineItem × List LineItem :=
  (st.1, consStep st.2 item)

/-- `to_receipt` as a method call on the register: the returned value together
with the register's post-call state. -/
def CashRegister.to_receipt_run (r : CashRegister) : Receipt × CashRegister :=
  let st := r.line_items.foldl consLoopStep (r.line_items, [])
  let lines := List.insertionSort skuLE st.2
  let total_gross := (lines.map LineItem.total_price).sum
  let discount_amount :=
    if r.discount_percent > 0 then total_gross * (r.discount_percent / 100) else (0 : ℚ)
  let total_due := total_gross - discount_amount
  ({ lines := lines, total_gross := total_gross,
     discount_pct := r.discount_percent, total_due := total_due },
   { line_items := st.1, discount_percent := r.discount_percent })

/-- A public-API call, for the reachable-state model: `scan_item` and
`apply_discount` leave the state unchanged when they raise (§7: no partial
mutation), `total` and `to_receipt` are pure reads. -/
inductive Op where
  | scan (sku : String) (price : ℚ) (qty : Int)
  | discount (percent : ℚ)
  | removeDiscount
  | queryTotal
  | reset
  | toReceipt
  deriving Repr

/-- Apply one public-API call to a register state. -/
def applyOp (r : CashRegister) (op : Op) : CashRegister :=
  match op with
  | .scan sku price qty =>
    match r.scan_item sku price qty with
    | .ok r' => r'
    | .error _ => r
  | .discount percent =>
    match r.apply_discount percent with
    | .ok r' => r'
    | .error _ => r
  | .removeDiscount => r.remove_discount
  | .queryTotal => r
  | .reset => r.reset
  | .toReceipt => r

/-- The register state reached from the empty register by a call sequence. -/
def runOps (ops : List Op) : CashRegister :=
  ops.foldl applyOp CashRegister.init

/-- Sum of `total_price` over a list of line items. -/
def sumTP (l : List LineItem) : ℚ :=
  (l.map LineItem.total_price).sum

/-- Sum of the scanned quantities of the `(s, p)` group in a scan log. -/
def sumQty (s : String) (p : ℚ) (items : List LineItem) : Int :=
  ((items.filter (fun x => decide (x.sku = s ∧ x.unit_price = p))).map LineItem.qty).sum

/-- Specification-side description of the grouping (spec §4.2 step 1-2): the
distinct unit prices scanned for sku `s`, in first-seen order. -/
def firstPrices (s : String) : List LineItem → List ℚ
  | [] => []
  | x :: xs =>
    if x.sku = s then
      x.unit_price :: (firstPrices s xs).filter (fun p => decide (p ≠ x.unit_price))
    else
      firstPrices s xs

/-- Add to a consolidated entry the quantities of all matching later scans. -/
def addMatching (c : LineItem) (items : List LineItem) : LineItem :=
  { c with qty := c.qty + sumQty c.sku c.unit_price items }

/-- The consolidated entries created for keys not yet seen, in first-seen
order, each already carrying its full summed quantity. -/
def newGroups (seen : List (String × ℚ)) : List LineItem → List LineItem
  | [] => []
  | x :: xs =>
    if x.key ∈ seen then newGroups seen xs
    else
      { sku := x.sku, qty := x.qty + sumQty x.sku x.unit_price xs, unit_price := x.unit_price } ::
        newGroups (x.key :: seen) xs


lemma foldl_consLoopStep_fst (items : List LineItem) :
    ∀ st : List LineItem × List LineItem, (items.foldl consLoopStep st).1 = st.1 := by
  induction items with
  | nil => intro st; rfl
  | cons x xs ih => intro st; simpa [consLoopStep] using ih (st.1, consStep st.2 x)

lemma foldl_consLoopStep_snd (items : List LineItem) :
    ∀ st : List LineItem × List LineItem, (items.foldl consLoopStep st).2 = items.foldl consStep st.2 := by
  induction items with
  | nil => intro st; rfl
  | cons x xs ih => intro st; simpa [consLoopStep] using ih (st.1, consStep st.2 x)

/-- C3: `scan_item(sku, p, qty)` fails with `NegativePriceError p` exactly when
`p <= 0`, and on success appends exactly one `LineItem(sku, qty, p)` at the end
of the scan log, leaving the discount unchanged. A failing call returns the
error before any mutation, so the register state is the unchanged pre-state. -/
theorem scan_item_spec (r : CashRegister) (sku : String) (price : ℚ) (qty : Int) :
    (price ≤ 0 → r.scan_item sku price qty = .error (.NegativePriceError price))
    ∧ (0 < price → r.scan_item sku price qty
        = .ok { line_items := r.line_items ++ [{ sku := sku, qty := qty, unit_price := price }],
                discount_percent := r.discount_percent }) := by
  constructor
  · intro h; simp [CashRegister.scan_item, h]
  · intro h; simp [CashRegister.scan_item, not_le.mpr h]

theorem scan_item_spec_witness :
    CashRegister.init.scan_item "A" (-1) 1 = .error (.NegativePriceError (-1))
    ∧ CashRegister.init.scan_item "A" 2 1
        = .ok { line_items := [{ sku := "A", qty := 1, unit_price := 2 }], discount_percent := 0 } :=
  ⟨(scan_item_spec CashRegister.init "A" (-1) 1).1 (by norm_num),
   by simpa [CashRegister.init] using (scan_item_spec CashRegister.init "A" 2 1).2 (by norm_num)⟩

/-- C4: `apply_discount(d)` fails with `DiscountError d` exactly when `d <= 0`
or `d >= 100`, leaving the state unchanged (the error is returned before any
mutation); on success it overwrites the discount scalar with `d`, so a later
valid `apply_discount` replaces rather than stacks with an earlier one. -/
theorem apply_discount_spec (r : CashRegister) (d d2 : ℚ) :
    ((d ≤ 0 ∨ 100 ≤ d) → r.apply_discount d = .error (.DiscountError d))
    ∧ (0 < d → d < 100 → r.apply_discount d
        = .ok { line_items := r.line_items, discount_percent := d })
    ∧ (0 < d → d < 100 → 0 < d2 → d2 < 100 →
        (r.apply_discount d).bind (fun r1 => r1.apply_discount d2)
          = .ok { line_items := r.line_items, discount_percent := d2 }) := by
  refine ⟨?_, ?_, ?_⟩
  · intro h; simp [CashRegister.apply_discount, ge_iff_le, h]
  · intro h1 h2
    simp [CashRegister.apply_discount, ge_iff_le, not_or, not_le, h1, h2]
  · intro h1 h2 h3 h4
    have hc1 : ¬ (d ≤ 0 ∨ 100 ≤ d) := by push_neg; exact ⟨h1, h2⟩
    have hc2 : ¬ (d2 ≤ 0 ∨ 100 ≤ d2) := by push_neg; exact ⟨h3, h4⟩
    simp [CashRegister.apply_discount, ge_iff_le, hc1, hc2, Except.bind]

theorem apply_discount_spec_witness :
    CashRegister.init.apply_discount 100 = .error (.DiscountError 100)
    ∧ CashRegister.init.apply_discount 10
        = .ok { line_items := [], discount_percent := 10 }
    ∧ (CashRegister.init.apply_discount 10).bind (fun r1 => r1.apply_discount 25)
        = .ok { line_items := [], discount_percent := 25 } :=
  ⟨(apply_discount_spec CashRegister.init 100 0).1 (Or.inr (by norm_num)),
   by simpa [CashRegister.init] using
     (apply_discount_spec CashRegister.init 10 0).2.1 (by norm_num) (by norm_num),
   by simpa [CashRegister.init] using
     (apply_discount_spec CashRegister.init 10 25).2.2 (by norm_num) (by norm_num)
       (by norm_num) (by norm_num)⟩

/-- C2: `total()` returns the exact sum of `unit_price * qty` over the scanned
line items when the discount is 0, and that sum times `1 - d/100` (exact
arithmetic, no intermediate rounding) when the discount `d` is positive; in
particular scanning unit_price 33.33 qty 1 then `apply_discount(10)` makes
`total()` return exactly 29.997. -/
theorem total_spec (r : CashRegister) :
    (r.discount_percent = 0 → r.total = sumTP r.line_items)
    ∧ (0 < r.discount_percent →
        r.total = sumTP r.line_items * (1 - r.discount_percent / 100))
    ∧ ((CashRegister.init.scan_item "X" (3333/100) 1).bind
        (fun r1 => r1.apply_discount 10)).map CashRegister.total = .ok (29997/1000) := by
  refine ⟨?_, ?_, ?_⟩
  · intro h; simp [CashRegister.total, sumTP, h]
  · intro h; simp [CashRegister.total, sumTP, gt_iff_lt, h]; ring
  · norm_num [CashRegister.init, CashRegister.scan_item, CashRegister.apply_discount,
      Except.bind, Except.map, CashRegister.total, LineItem.total_price]

theorem total_spec_witness :
    ({ line_items := [{ sku := "A", qty := 2, unit_price := 5 }], discount_percent := 0 } :
      CashRegister).total = sumTP [{ sku := "A", qty := 2, unit_price := 5 }] :=
  (total_spec _).1 rfl

/-- C5: the receipt returned by `to_receipt()` has `total_gross` equal to the
sum of `total_price` over its consolidated lines, `total_due` equal to
`total_gross - total_gross * (d / 100)` when the discount `d` is positive and
to `total_gross` otherwise, and `discount_pct` equal to the register discount
at the time of the call; the empty register yields zero lines, `total_gross`
0, `total_due` 0 and `discount_pct` 0. -/
theorem to_receipt_totals (r : CashRegister) :
    (r.to_receipt).total_gross = sumTP (r.to_receipt).lines
    ∧ (0 < r.discount_percent →
        (r.to_receipt).total_due
          = (r.to_receipt).total_gross - (r.to_receipt).total_gross * (r.discount_percent / 100))
    ∧ (¬ 0 < r.discount_percent → (r.to_receipt).total_due = (r.to_receipt).total_gross)
    ∧ (r.to_receipt).discount_pct = r.discount_percent
    ∧ CashRegister.init.to_receipt
        = { lines := [], total_gross := 0, discount_pct := 0, total_due := 0 } := by
  refine ⟨?_, ?_, ?_, ?_, ?_⟩
  · simp [CashRegister.to_receipt, sumTP]
  · intro h; simp [CashRegister.to_receipt, gt_iff_lt, h]
  · intro h; simp [CashRegister.to_receipt, gt_iff_lt, h]
  · simp [CashRegister.to_receipt]
  · norm_num [CashRegister.init, CashRegister.to_receipt, consStep, skuLE]

theorem to_receipt_totals_witness :
    (({ line_items := [], discount_percent := 50 } : CashRegister).to_receipt).total_due
      = (({ line_items := [], discount_percent := 50 } : CashRegister).to_receipt).total_gross
        - (({ line_items := [], discount_percent := 50 } : CashRegister).to_receipt).total_gross
          * ((50 : ℚ) / 100) :=
  (to_receipt_totals _).2.1 (by norm_num)

/-- C7: `reset()` clears the scan log to empty and changes nothing else: the
discount scalar is untouched, `total()` returns 0 immediately afterwards, and
a `total()` computed after `reset()` and a new scan still reflects the
previously set discount. -/
theorem reset_spec (r : CashRegister) (sku : String) (p : ℚ) (qty : Int) :
    r.reset = { line_items := [], discount_percent := r.discount_percent }
    ∧ (r.reset).total = 0
    ∧ (0 < p → 0 < r.discount_percent →
        ((r.reset).scan_item sku p qty).map CashRegister.total
          = .ok ((p * (qty : ℚ)) * (1 - r.discount_percent / 100))) := by
  refine ⟨rfl, ?_, ?_⟩
  · simp [CashRegister.reset, CashRegister.total]
  · intro hp hd
    simp [CashRegister.reset, CashRegister.scan_item, not_le.mpr hp, Except.map,
      CashRegister.total, LineItem.total_price, gt_iff_lt, hd]
    ring

theorem reset_spec_witness :
    (({ line_items := [{ sku := "A", qty := 1, unit_price := 4 }], discount_percent := 10 } :
        CashRegister).reset.scan_item "B" 2 3).map CashRegister.total
      = .ok (((2 : ℚ) * ((3 : Int) : ℚ)) * (1 - (10 : ℚ) / 100)) :=
  (reset_spec _ "B" 2 3).2.2 (by norm_num) (by norm_num)

/-- C9: `scan_item` never validates `qty`: for every `qty <= 0` and
`unit_price > 0` it succeeds, appends the line item as given, and the
resulting line total is `qty * unit_price`, i.e. zero or negative. -/
theorem scan_item_no_qty_validation (r : CashRegister) (sku : String) (p : ℚ) (qty : Int)
    (hq : qty ≤ 0) (hp : 0 < p) :
    r.scan_item sku p qty
      = .ok { line_items := r.line_items ++ [{ sku := sku, qty := qty, unit_price := p }],
              discount_percent := r.discount_percent }
    ∧ (LineItem.mk sku qty p).total_price = p * (qty : ℚ)
    ∧ (LineItem.mk sku qty p).total_price ≤ 0 := by
  have hq' : (qty : ℚ) ≤ 0 := by exact_mod_cast hq
  refine ⟨?_, rfl, ?_⟩
  · simp [CashRegister.scan_item, not_le.mpr hp]
  · simp only [LineItem.total_price]
    exact mul_nonpos_of_nonneg_of_nonpos hp.le hq'

theorem scan_item_no_qty_validation_witness :
    CashRegister.init.scan_item "A" 3 (-2)
      = .ok { line_items := [{ sku := "A", qty := -2, unit_price := 3 }], discount_percent := 0 }
    ∧ (LineItem.mk "A" (-2) 3).total_price ≤ 0 := by
  have h := scan_item_no_qty_validation CashRegister.init "A" 3 (-2) (by norm_num) (by norm_num)
  exact ⟨by simpa [CashRegister.init] using h.1, h.2.2⟩

/-- C6: `to_receipt()` never mutates the register: the method call returns
the receipt with the register state exactly as before the call (the
consolidation loop writes only to fresh copies in the dict, never to the
stored items), and calling it twice with no intervening mutation yields two
identical `Receipt` values. -/
theorem to_receipt_pure (r : CashRegister) :
    r.to_receipt_run = (r.to_receipt, r)
    ∧ ((r.to_receipt_run).2).to_receipt_run = r.to_receipt_run := by
  have h1 : r.to_receipt_run = (r.to_receipt, r) := by
    simp [CashRegister.to_receipt_run, CashRegister.to_receipt,
      foldl_consLoopStep_fst, foldl_consLoopStep_snd]
  exact ⟨h1, by rw [h1]; exact h1⟩

/-- C8 counterexample: the claimed invariant "every stored LineItem has a
non-empty sku" fails on a reachable state: `scan_item` validates only the
price, so scanning sku `""` at price 1 succeeds and stores a line item whose
sku is the empty string. -/
theorem reachable_state_empty_sku_cex :
    ∃ li ∈ (runOps [Op.scan "" 1 1]).line_items, li.sku = "" := by
  refine ⟨⟨"", 1, 1⟩, ?_, rfl⟩
  decide

lemma applyOp_preserves_inv (r : CashRegister) (op : Op)
    (h : (∀ li ∈ r.line_items, 0 < li.unit_price)
      ∧ (r.discount_percent = 0 ∨ (0 < r.discount_percent ∧ r.discount_percent < 100))) :
    (∀ li ∈ (applyOp r op).line_items, 0 < li.unit_price)
    ∧ ((applyOp r op).discount_percent = 0
      ∨ (0 < (applyOp r op).discount_percent ∧ (applyOp r op).discount_percent < 100)) := by
  obtain ⟨hitems, hd⟩ := h
  cases op with
  | scan sku price qty =>
    by_cases hp : price ≤ 0
    · simpa [applyOp, CashRegister.scan_item, hp] using ⟨hitems, hd⟩
    · push_neg at hp
      simp only [applyOp, CashRegister.scan_item, if_neg (not_le.mpr hp)]
      refine ⟨?_, hd⟩
      intro li hli
      rcases List.mem_append.mp hli with h1 | h1
      · exact hitems li h1
      · rw [List.mem_singleton] at h1
        rw [h1]
        exact hp
  | discount percent =>
    by_cases hdc : percent ≤ 0 ∨ percent ≥ 100
    · simpa [applyOp, CashRegister.apply_discount, hdc] using ⟨hitems, hd⟩
    · push_neg at hdc
      simp only [applyOp, CashRegister.apply_discount, ge_iff_le, if_neg
        (by push_neg; exact ⟨hdc.1, hdc.2⟩ : ¬ (percent ≤ 0 ∨ 100 ≤ percent))]
      exact ⟨hitems, Or.inr ⟨hdc.1, hdc.2⟩⟩
  | removeDiscount =>
    exact ⟨hitems, Or.inl rfl⟩
  | queryTotal => exact ⟨hitems, hd⟩
  | reset =>
    refine ⟨?_, hd⟩
    intro li hli
    simp [applyOp, CashRegister.reset] at hli
  | toReceipt => exact ⟨hitems, hd⟩

lemma foldl_applyOp_inv : ∀ (ops : List Op) (r : CashRegister),
    ((∀ li ∈ r.line_items, 0 < li.unit_price)
      ∧ (r.discount_percent = 0 ∨ (0 < r.discount_percent ∧ r.discount_percent < 100))) →
    ((∀ li ∈ (ops.foldl applyOp r).line_items, 0 < li.unit_price)
      ∧ ((ops.foldl applyOp r).discount_percent = 0
        ∨ (0 < (ops.foldl applyOp r).discount_percent
          ∧ (ops.foldl applyOp r).discount_percent < 100))) := by
  intro ops
  induction ops with
  | nil => intro r h; exact h
  | cons op rest ih =>
    intro r h
    rw [List.foldl_cons]
    exact ih (applyOp r op) (applyOp_preserves_inv r op h)

/-- C8 (amended): in every register state reachable from the empty register
by any sequence of public-API calls, every stored line item has
`unit_price > 0`, and the discount scalar is either 0 or strictly between 0
and 100 exclusive. (The non-empty-sku part of the original claim is false:
see the counterexample.) -/
theorem reachable_state_invariant (ops : List Op) :
    (∀ li ∈ (runOps ops).line_items, 0 < li.unit_price)
    ∧ ((runOps ops).discount_percent = 0
      ∨ (0 < (runOps ops).discount_percent ∧ (runOps ops).discount_percent < 100)) :=
  foldl_applyOp_inv ops CashRegister.init (by simp [CashRegister.init])

theorem reachable_state_invariant_witness :
    0 < (LineItem.mk "A" 1 (2 : ℚ)).unit_price :=
  (reachable_state_invariant [Op.scan "A" 2 1]).1 ⟨"A", 1, 2⟩ (by decide)

lemma key_eq_iff (a b : LineItem) :
    a.key = b.key ↔ (a.sku = b.sku ∧ a.unit_price = b.unit_price) := by
  simp [LineItem.key, Prod.ext_iff]

lemma sumQty_nil (s : String) (p : ℚ) : sumQty s p [] = 0 := rfl

lemma sumQty_cons (s : String) (p : ℚ) (x : LineItem) (xs : List LineItem) :
    sumQty s p (x :: xs)
      = (if x.sku = s ∧ x.unit_price = p then x.qty else 0) + sumQty s p xs := by
  by_cases h : x.sku = s ∧ x.unit_price = p <;>
    simp [sumQty, List.filter_cons, h]

lemma addMatching_nil (c : LineItem) : addMatching c [] = c := by
  simp [addMatching, sumQty_nil]

lemma addMatching_cons_ne (c x : LineItem) (xs : List LineItem) (h : c.key ≠ x.key) :
    addMatching c (x :: xs) = addMatching c xs := by
  have hne : ¬ (x.sku = c.sku ∧ x.unit_price = c.unit_price) := by
    intro hc
    exact h ((key_eq_iff c x).mpr ⟨hc.1.symm, hc.2.symm⟩)
  simp [addMatching, sumQty_cons, hne]

lemma addMatching_cons_eq (c x : LineItem) (xs : List LineItem) (h : c.key = x.key) :
    addMatching c (x :: xs)
      = addMatching { c with qty := c.qty + x.qty } xs := by
  obtain ⟨h1, h2⟩ := (key_eq_iff c x).mp h
  simp [addMatching, sumQty_cons, h1.symm, h2.symm, add_assoc]

lemma bumpFirst_map_key (x : LineItem) : ∀ acc : List LineItem,
    (bumpFirst x acc).map LineItem.key = acc.map LineItem.key := by
  intro acc
  induction acc with
  | nil => rfl
  | cons c cs ih =>
    by_cases h : c.key = x.key
    · simp only [bumpFirst, if_pos h, List.map_cons]
      simp [LineItem.key]
    · simp only [bumpFirst, if_neg h, List.map_cons, ih]

lemma bumpFirst_map_addMatching (x : LineItem) (xs : List LineItem) :
    ∀ acc : List LineItem, (acc.map LineItem.key).Nodup →
      (bumpFirst x acc).map (fun c => addMatching c xs)
        = acc.map (fun c => addMatching c (x :: xs)) := by
  intro acc
  induction acc with
  | nil => intro _; rfl
  | cons c cs ih =>
    intro hnd
    rw [List.map_cons, List.nodup_cons] at hnd
    obtain ⟨hnotin, hnd'⟩ := hnd
    by_cases h : c.key = x.key
    · simp only [bumpFirst, if_pos h, List.map_cons]
      congr 1
      · exact (addMatching_cons_eq c x xs h).symm
      · refine List.map_congr_left ?_
        intro c' hc'
        have hkey : c'.key ≠ x.key := by
          rw [← h]
          intro hc
          exact hnotin (hc ▸ List.mem_map_of_mem LineItem.key hc')
        exact (addMatching_cons_ne c' x xs hkey).symm
    · simp only [bumpFirst, if_neg h, List.map_cons]
      congr 1
      · exact (addMatching_cons_ne c x xs h).symm
      · exact ih hnd'

lemma newGroups_congr : ∀ (items : List LineItem) (s1 s2 : List (String × ℚ)),
    (∀ k, k ∈ s1 ↔ k ∈ s2) → newGroups s1 items = newGroups s2 items := by
  intro items
  induction items with
  | nil => intro s1 s2 _; rfl
  | cons x xs ih =>
    intro s1 s2 h
    by_cases hx : x.key ∈ s1
    · rw [newGroups, newGroups, if_pos hx, if_pos ((h x.key).mp hx)]
      exact ih s1 s2 h
    · rw [newGroups, newGroups, if_neg hx, if_neg (fun hc => hx ((h x.key).mpr hc))]
      congr 1
      refine ih (x.key :: s1) (x.key :: s2) ?_
      intro k
      simp [List.mem_cons, h k]

lemma foldl_consStep_eq : ∀ (items : List LineItem) (acc : List LineItem),
    (acc.map LineItem.key).Nodup →
    items.foldl consStep acc
      = acc.map (fun c => addMatching c items)
        ++ newGroups (acc.map LineItem.key) items := by
  intro items
  induction items with
  | nil =>
    intro acc _
    simp [newGroups, addMatching_nil]
  | cons x xs ih =>
    intro acc hnd
    rw [List.foldl_cons]
    by_cases hx : x.key ∈ acc.map LineItem.key
    · rw [show consStep acc x = bumpFirst x acc from by simp [consStep, hx]]
      have hnd' : ((bumpFirst x acc).map LineItem.key).Nodup := by
        rw [bumpFirst_map_key]; exact hnd
      rw [ih (bumpFirst x acc) hnd', bumpFirst_map_key]
      rw [newGroups, if_pos hx]
      congr 1
      exact bumpFirst_map_addMatching x xs acc hnd
    · rw [show consStep acc x = acc ++ [x] from by simp [consStep, hx]]
      have hnd2 : ((acc ++ [x]).map LineItem.key).Nodup := by
        rw [List.map_append, List.nodup_append]
        refine ⟨hnd, List.nodup_singleton _, fun k hk hk2 => ?_⟩
        rw [List.map_singleton, List.mem_singleton] at hk2
        exact hx (hk2 ▸ hk)
      rw [ih (acc ++ [x]) hnd2]
      rw [newGroups, if_neg hx]
      rw [List.map_append, List.map_append]
      have hmapeq : acc.map (fun c => addMatching c xs)
          = acc.map (fun c => addMatching c (x :: xs)) := by
        refine List.map_congr_left ?_
        intro c hc
        have hkey : c.key ≠ x.key := fun he => hx (he ▸ List.mem_map_of_mem LineItem.key hc)
        exact (addMatching_cons_ne c x xs hkey).symm
      rw [hmapeq]
      rw [List.append_assoc]
      congr 1
      have hng : newGroups (acc.map LineItem.key ++ [x.key]) xs
          = newGroups (x.key :: acc.map LineItem.key) xs := by
        refine newGroups_congr xs _ _ ?_
        intro k
        simp [List.mem_append, List.mem_cons, or_comm]
      simp only [List.map_cons, List.map_nil, hng]
      rfl

lemma consolidate_eq (items : List LineItem) :
    items.foldl consStep [] = newGroups [] items := by
  simpa using foldl_consStep_eq items [] (by simp)

lemma filter_ne_filter_notin_seen (s : String) (t : ℚ) (seen : List (String × ℚ))
    (h : (s, t) ∈ seen) (l : List ℚ) :
    (l.filter (fun p => decide (p ≠ t))).filter (fun p => decide ((s, p) ∉ seen))
      = l.filter (fun p => decide ((s, p) ∉ seen)) := by
  rw [List.filter_filter]
  refine List.filter_congr ?_
  intro p _
  by_cases hp : p = t
  · subst hp; simp [h]
  · simp [hp]

lemma filter_ne_filter_cons_seen (s : String) (t : ℚ) (seen : List (String × ℚ)) (l : List ℚ) :
    (l.filter (fun p => decide (p ≠ t))).filter (fun p => decide ((s, p) ∉ seen))
      = l.filter (fun p => decide ((s, p) ∉ (s, t) :: seen)) := by
  rw [List.filter_filter]
  refine List.filter_congr ?_
  intro p _
  by_cases hp : p = t
  · subst hp; simp
  · simp [hp, Prod.ext_iff]

lemma filter_notin_cons_ne (s : String) (k : String × ℚ) (seen : List (String × ℚ))
    (hk : k.1 ≠ s) (l : List ℚ) :
    l.filter (fun p => decide ((s, p) ∉ k :: seen))
      = l.filter (fun p => decide ((s, p) ∉ seen)) := by
  refine List.filter_congr ?_
  intro p _
  have hne : (s, p) ≠ k := fun he => hk (by rw [← he])
  simp [List.mem_cons, hne]

lemma map_group_congr (s : String) (x : LineItem) (xs : List LineItem) (l : List ℚ)
    (h : ∀ p ∈ l, ¬ (x.sku = s ∧ x.unit_price = p)) :
    l.map (fun p => ({ sku := s, qty := sumQty s p (x :: xs), unit_price := p } : LineItem))
      = l.map (fun p => ({ sku := s, qty := sumQty s p xs, unit_price := p } : LineItem)) := by
  refine List.map_congr_left ?_
  intro p hp
  rw [sumQty_cons, if_neg (h p hp), zero_add]

lemma newGroups_filter_sku (s : String) : ∀ (items : List LineItem) (seen : List (String × ℚ)),
    (newGroups seen items).filter (fun li => decide (li.sku = s))
      = ((firstPrices s items).filter (fun p => decide ((s, p) ∉ seen))).map
          (fun p => { sku := s, qty := sumQty s p items, unit_price := p }) := by
  intro items
  induction items with
  | nil => intro seen; rfl
  | cons x xs ih =>
    intro seen
    by_cases hs : x.sku = s
    · subst hs
      rw [firstPrices, if_pos (rfl : x.sku = x.sku)]
      by_cases hseen : x.key ∈ seen
      · have hsx : (x.sku, x.unit_price) ∈ seen := hseen
        rw [newGroups, if_pos hseen, ih seen]
        rw [List.filter_cons]
        rw [decide_eq_false (by simpa using hsx : ¬ ((x.sku, x.unit_price) ∉ seen))]
        simp only [Bool.false_eq_true, if_false]
        rw [filter_ne_filter_notin_seen x.sku x.unit_price seen hsx]
        refine (map_group_congr x.sku x xs _ ?_).symm
        intro p hp hcon
        have hpmem : (x.sku, p) ∉ seen := by
          simpa using (List.mem_filter.mp hp).2
        exact hpmem (hcon.2 ▸ hsx)
      · have hsx : (x.sku, x.unit_price) ∉ seen := hseen
        rw [newGroups, if_neg hseen]
        simp only [List.filter_cons, decide_eq_true_eq, eq_self_iff_true, if_true]
        rw [if_pos hsx]
        rw [List.map_cons]
        congr 1
        · rw [sumQty_cons, if_pos ⟨rfl, rfl⟩]
        · rw [filter_ne_filter_cons_seen x.sku x.unit_price seen]
          simp only [LineItem.key]
          rw [ih ((x.sku, x.unit_price) :: seen)]
          refine (map_group_congr x.sku x xs _ ?_).symm
          intro p hp hcon
          have hpmem : (x.sku, p) ∉ (x.sku, x.unit_price) :: seen := by
            simpa using (List.mem_filter.mp hp).2
          exact hpmem (by rw [hcon.2]; exact List.mem_cons_self _ _)
    · rw [firstPrices, if_neg hs]
      by_cases hseen : x.key ∈ seen
      · rw [newGroups, if_pos hseen, ih seen]
        exact (map_group_congr s x xs _ (fun p _ hcon => hs hcon.1)).symm
      · rw [newGroups, if_neg hseen]
        simp only [List.filter_cons, decide_eq_true_eq]
        rw [if_neg hs]
        rw [ih (x.key :: seen)]
        rw [filter_notin_cons_ne s x.key seen hs]
        exact (map_group_congr s x xs _ (fun p _ hcon => hs hcon.1)).symm

lemma orderedInsert_filter_sku (s : String) (x : LineItem) : ∀ l : List LineItem,
    (List.orderedInsert skuLE x l).filter (fun li => decide (li.sku = s))
      = if x.sku = s then x :: l.filter (fun li => decide (li.sku = s))
        else l.filter (fun li => decide (li.sku = s)) := by
  intro l
  induction l with
  | nil =>
    by_cases h : x.sku = s <;> simp [List.orderedInsert, h]
  | cons y ys ih =>
    by_cases hle : skuLE x y
    · rw [List.orderedInsert, if_pos hle, List.filter_cons]
      by_cases h : x.sku = s <;> simp [h]
    · rw [List.orderedInsert, if_neg hle, List.filter_cons, List.filter_cons, ih]
      have hylt : y.sku < x.sku := lt_of_not_le (fun hc => hle hc)
      by_cases h : x.sku = s
      · have hy : ¬ (y.sku = s) := fun hc => absurd (h ▸ hc ▸ hylt) (lt_irrefl _)
        simp [h, hy]
      · by_cases hy : y.sku = s <;> simp [h, hy]

lemma insertionSort_filter_sku (s : String) : ∀ l : List LineItem,
    (List.insertionSort skuLE l).filter (fun li => decide (li.sku = s))
      = l.filter (fun li => decide (li.sku = s)) := by
  intro l
  induction l with
  | nil => rfl
  | cons x xs ih =>
    rw [List.insertionSort, orderedInsert_filter_sku, ih, List.filter_cons]
    by_cases h : x.sku = s <;> simp [h]

/-- C1: `to_receipt()` groups the scanned line items by `(sku, unit_price)`,
merging each group into one consolidated line whose `qty` is the sum of the
group's quantities (scans of the same sku at a different unit price stay
distinct lines), and orders the lines by sku ascending, lines sharing a sku
appearing in the first-seen order of their `(sku, unit_price)` group: the
lines are sorted by `skuLE`, and for every sku `s` the sublist of lines with
sku `s` is exactly one line per distinct unit price of `s` in the scan log,
in first-seen order, carrying the group's summed quantity. -/
theorem to_receipt_groups_and_orders (r : CashRegister) :
    List.Sorted skuLE (r.to_receipt).lines
    ∧ ∀ s : String,
        (r.to_receipt).lines.filter (fun li => decide (li.sku = s))
          = (firstPrices s r.line_items).map
              (fun p => { sku := s, qty := sumQty s p r.line_items, unit_price := p }) := by
  constructor
  · exact List.sorted_insertionSort skuLE _
  · intro s
    show (List.insertionSort skuLE (r.line_items.foldl consStep [])).filter
        (fun li => decide (li.sku = s)) = _
    rw [insertionSort_filter_sku, consolidate_eq, newGroups_filter_sku]
    congr 1
    refine (List.filter_congr ?_).symm.trans (List.filter_true _)
    intro p _
    simp

lemma sumTP_nil : sumTP [] = 0 := rfl

lemma sumTP_cons (c : LineItem) (cs : List LineItem) :
    sumTP (c :: cs) = c.total_price + sumTP cs := by
  simp [sumTP]

lemma sumTP_bumpFirst (x : LineItem) : ∀ acc : List LineItem,
    x.key ∈ acc.map LineItem.key →
    sumTP (bumpFirst x acc) = sumTP acc + x.total_price := by
  intro acc
  induction acc with
  | nil => intro h; simp at h
  | cons c cs ih =>
    intro hmem
    by_cases h : c.key = x.key
    · rw [bumpFirst, if_pos h, sumTP_cons, sumTP_cons]
      obtain ⟨h1, h2⟩ := (key_eq_iff c x).mp h
      simp only [LineItem.total_price, h2]
      push_cast
      ring
    · rw [bumpFirst, if_neg h, sumTP_cons, sumTP_cons]
      have hmem' : x.key ∈ cs.map LineItem.key := by
        rw [List.map_cons, List.mem_cons] at hmem
        rcases hmem with h1 | h1
        · exact absurd h1.symm h
        · exact h1
      rw [ih hmem']
      ring

lemma sumTP_consStep (acc : List LineItem) (x : LineItem) :
    sumTP (consStep acc x) = sumTP acc + x.total_price := by
  by_cases h : x.key ∈ acc.map LineItem.key
  · rw [show consStep acc x = bumpFirst x acc from by simp [consStep, h]]
    exact sumTP_bumpFirst x acc h
  · rw [show consStep acc x = acc ++ [x] from by simp [consStep, h]]
    simp [sumTP]

lemma sumTP_foldl_consStep : ∀ (items acc : List LineItem),
    sumTP (items.foldl consStep acc) = sumTP acc + sumTP items := by
  intro items
  induction items with
  | nil => intro acc; simp [sumTP]
  | cons x xs ih =>
    intro acc
    rw [List.foldl_cons, ih (consStep acc x), sumTP_consStep, sumTP_cons]
    ring

lemma sumTP_insertionSort (l : List LineItem) :
    sumTP (List.insertionSort skuLE l) = sumTP l := by
  exact List.Perm.sum_eq (List.Perm.map LineItem.total_price (List.perm_insertionSort skuLE l))

/-- C10: `total()` agrees with `to_receipt().total_due` on every register
state: consolidation preserves the sum of line totals, so the discounted raw
subtotal equals the discounted consolidated gross. -/
theorem total_refines_receipt_due (r : CashRegister) :
    r.total = (r.to_receipt).total_due := by
  have h1 := sumTP_insertionSort (r.line_items.foldl consStep [])
  have h2 := sumTP_foldl_consStep r.line_items []
  rw [sumTP_nil, zero_add] at h2
  have hsum : ((List.insertionSort skuLE (r.line_items.foldl consStep [])).map
      LineItem.total_price).sum = (r.line_items.map LineItem.total_price).sum := by
    have := h1.trans h2
    simpa [sumTP] using this
  simp only [CashRegister.total, CashRegister.to_receipt, hsum]
  by_cases hd : r.discount_percent > 0
  · simp [hd]
  · simp [hd]
